import Mathlib

/-!
Verification development for the multi-stream inference orchestrator
(`backend/orchestrator/orchestrator.py`, `backend/orchestrator/types.py`,
`backend/cv/worker.py`).

The Python code is shallowly embedded: dictionaries become association
lists, `multiprocessing.Queue` becomes a bounded FIFO list, monotonic
clock values and float-valued backoffs become rationals, and every
stateful method becomes a pure state-passing function.  Concurrency is
serialised: every orchestrator method runs under `self._lock`, so its
effect is an atomic state transition.
-/

namespace OpenAR

/-! Bounded queue with `put_nowait` and `get_nowait` (multiprocessing.Queue).

`items` is ordered oldest-first; `put_nowait` appends at the back when
`items.length < cap` and raises `Full` otherwise; `get_nowait` pops the
front and raises `Empty` on an empty queue. -/

structure BQueue (α : Type) where
  cap : Nat
  items : List α
deriving Repr, DecidableEq

def BQueue.empty (α : Type) (cap : Nat) : BQueue α := ⟨cap, []⟩

/-- Embeds `worker._offer_latest` (worker.py lines 23-32):
`put_nowait(item)`; on `Full`, `get_nowait()` then `put_nowait(item)`,
swallowing `Empty`/`Full` raised by the inner attempt. -/
def offer_latest (q : BQueue α) (x : α) : BQueue α :=
  if q.items.length < q.cap then
    { q with items := q.items ++ [x] }
  else
    match q.items with
    | [] => q
    | _ :: rest =>
        if rest.length < q.cap then { q with items := rest ++ [x] }
        else { q with items := rest }

/-- Models `get_nowait` on the bounded queue: `none` models raising `Empty`. -/
def getNowait (q : BQueue α) : Option α × BQueue α :=
  match q.items with
  | [] => (none, q)
  | x :: rest => (some x, { q with items := rest })

/-- A sequence of `_offer_latest` calls on the same queue. -/
def offerAll (q : BQueue α) (xs : List α) : BQueue α := xs.foldl offer_latest q

/-! StreamConfig validation (types.py lines 12-17).

`StreamConfig` is a pydantic model: `stream_id` has `min_length=1` and
pattern `^[a-zA-Z0-9_-]+$`; `source_url` has `min_length=1`; `loop`
defaults to `True`.  Construction raises `ValidationError` when a
constraint fails. -/

structure StreamConfig where
  stream_id : String
  source_url : String
  loop : Bool
deriving Repr, DecidableEq

inductive ValidationError
  | invalid
deriving Repr, DecidableEq

/-- One character of the pattern class `[a-zA-Z0-9_-]` as the code checks it. -/
def isStreamIdChar (c : Char) : Bool := c.isAlphanum || c == '_' || c == '-'

/-- The `stream_id` field constraints: `min_length=1` plus the anchored
pattern `^[a-zA-Z0-9_-]+$`. -/
def streamIdOk (s : String) : Bool := !s.isEmpty && s.data.all isStreamIdChar

/-- Embeds `StreamConfig(...)` construction: pydantic validates every field
constraint and raises `ValidationError` when one fails. -/
def mkStreamConfig (stream_id source_url : String) (loop : Bool) :
    Except ValidationError StreamConfig :=
  if streamIdOk stream_id && !source_url.isEmpty then
    .ok ⟨stream_id, source_url, loop⟩
  else
    .error .invalid

/-- Modelled from the spec: one character of the class `[A-Za-z0-9_-]`. -/
def specIdChar (c : Char) : Bool :=
  decide (('A' ≤ c ∧ c ≤ 'Z') ∨ ('a' ≤ c ∧ c ≤ 'z') ∨ ('0' ≤ c ∧ c ≤ '9') ∨ c = '_' ∨ c = '-')

/-- Modelled from the spec: acceptance per the claim's grammar
`^[A-Za-z0-9_-]{1,64}$` together with a non-empty `source_url`. -/
def specConfigAccepted64 (stream_id source_url : String) : Bool :=
  decide (1 ≤ stream_id.length) && decide (stream_id.length ≤ 64)
    && stream_id.data.all specIdChar && decide (1 ≤ source_url.length)

/-- Modelled from the spec with the length cap removed: acceptance per
`^[A-Za-z0-9_-]+$` (length at least 1, no upper bound) together with a
non-empty `source_url`. -/
def specConfigAcceptedNoCap (stream_id source_url : String) : Bool :=
  decide (1 ≤ stream_id.length) && stream_id.data.all specIdChar
    && decide (1 ≤ source_url.length)

/-- A 65-character stream id, longer than the claimed 64-character cap. -/
def longStreamId : String := String.mk (List.replicate 65 'a')

/-- Returns `true` exactly when `StreamConfig(...)` construction succeeds. -/
def acceptsConfig (stream_id source_url : String) (loop : Bool) : Bool :=
  match mkStreamConfig stream_id source_url loop with
  | .ok _ => true
  | .error _ => false

/-! Orchestrator data model (orchestrator.py, types.py).

Python dicts become association lists with first-match semantics;
`d[k] = v` replaces in place or appends, `d.pop(k, None)` removes the
key, `d.get(k)` is `lookupA`.  Monotonic clock readings and float
backoffs become rationals (doubling, `min` and comparison are exact for
the float values involved).  The worker process is abstracted to its
observable surface (`is_alive`, `exitcode`); the `inference_queue`
field is not modelled, as no claim concerns it. -/

def lookupA {β : Type} : List (String × β) → String → Option β
  | [], _ => none
  | p :: rest, k => if p.1 == k then some p.2 else lookupA rest k

def insertA {β : Type} : List (String × β) → String → β → List (String × β)
  | [], k, v => [(k, v)]
  | p :: rest, k, v => if p.1 == k then (k, v) :: rest else p :: insertA rest k v

def eraseA {β : Type} : List (String × β) → String → List (String × β)
  | [], _ => []
  | p :: rest, k => if p.1 == k then eraseA rest k else p :: eraseA rest k

structure ProcessRef where
  alive : Bool
  exitcode : Option Int
deriving Repr, DecidableEq

/-- Embeds `WorkerHandle` (types.py lines 20-34). -/
structure WorkerHandle where
  process : ProcessRef
  config : StreamConfig
  started_at : Rat
  last_heartbeat : Rat
  restart_count : Nat
  backoff_seconds : Rat
  next_restart_at : Rat
  last_exitcode : Option Int
  viewer_count : Int
  no_viewer_since : Rat
deriving Repr, DecidableEq

/-- Constructor parameters of `WorkerOrchestrator.__init__` that the
claims exercise. -/
structure OrchParams where
  max_workers : Nat
  initial_backoff_seconds : Rat
  max_backoff_seconds : Rat
deriving Repr, DecidableEq

/-- The handle map and config registry guarded by `self._lock`. -/
structure Orch where
  workers : List (String × WorkerHandle)
  stream_configs : List (String × StreamConfig)
deriving Repr, DecidableEq

/-- orchestrator.exceptions: `StreamAlreadyRunningError`,
`ResourceLimitExceededError`, `StreamNotFoundError`. -/
inductive OrchError
  | alreadyRunning
  | capacityExceeded
  | notFound
deriving Repr, DecidableEq

/-- Embeds `WorkerOrchestrator._spawn_handle` (orchestrator.py lines 43-56):
`worker.start` yields a live process; the handle starts with
`backoff_seconds=initial`, `viewer_count=max(0, viewer_count)`,
`no_viewer_since=0.0 if viewer_count > 0 else time.monotonic()`, and the
dataclass defaults for the remaining fields. -/
def spawnHandle (P : OrchParams) (config : StreamConfig) (viewer_count : Int)
    (now : Rat) : WorkerHandle :=
  { process := { alive := true, exitcode := none }
    config := config
    started_at := now
    last_heartbeat := now
    restart_count := 0
    backoff_seconds := P.initial_backoff_seconds
    next_restart_at := 0
    last_exitcode := none
    viewer_count := max 0 viewer_count
    no_viewer_since := if 0 < viewer_count then 0 else now }

/-- Embeds `WorkerOrchestrator.start_stream` (orchestrator.py lines 58-68).
The pair carries the raised error or returned handle together with the
registry state after the call (raises happen before any mutation). -/
def start_stream (P : OrchParams) (S : Orch) (config : StreamConfig) (now : Rat) :
    Except OrchError WorkerHandle × Orch :=
  if (lookupA S.workers config.stream_id).isSome then
    (.error .alreadyRunning, S)
  else if P.max_workers ≤ S.workers.length then
    (.error .capacityExceeded, S)
  else
    let handle := spawnHandle P config 0 now
    (.ok handle,
      { workers := insertA S.workers config.stream_id handle
        stream_configs := insertA S.stream_configs config.stream_id config })

/-- Embeds `WorkerOrchestrator.stop_stream` (orchestrator.py lines 70-79):
the handle is popped and, when `remove_config`, the config is popped,
both before the not-found check, so the config removal happens even
when `StreamNotFoundError` is raised. -/
def stop_stream (S : Orch) (stream_id : String) (remove_config : Bool) :
    Except OrchError Unit × Orch :=
  let handle? := lookupA S.workers stream_id
  let S1 : Orch :=
    { workers := eraseA S.workers stream_id
      stream_configs :=
        if remove_config then eraseA S.stream_configs stream_id else S.stream_configs }
  match handle? with
  | none => (.error .notFound, S1)
  | some _ => (.ok (), S1)

/-- Embeds `WorkerOrchestrator.acquire_stream_viewer`
(orchestrator.py lines 94-116). -/
def acquire_stream_viewer (P : OrchParams) (S : Orch) (stream_id : String)
    (now : Rat) : Except OrchError WorkerHandle × Orch :=
  match lookupA S.workers stream_id with
  | some h =>
      let h1 := { h with
        viewer_count := h.viewer_count + 1
        no_viewer_since := 0
        last_heartbeat := now }
      (.ok h1, { S with workers := insertA S.workers stream_id h1 })
  | none =>
      match lookupA S.stream_configs stream_id with
      | none => (.error .notFound, S)
      | some config =>
          if P.max_workers ≤ S.workers.length then
            (.error .capacityExceeded, S)
          else
            let h := spawnHandle P config 1 now
            (.ok h, { S with workers := insertA S.workers stream_id h })

/-- The handle mutation performed by `release_stream_viewer` on an
existing handle: decrement `viewer_count` when positive; when the count
is 0 and `no_viewer_since` is unset, stamp it with `now`. -/
def releaseHandle (h : WorkerHandle) (now : Rat) : WorkerHandle :=
  let h1 :=
    if 0 < h.viewer_count then { h with viewer_count := h.viewer_count - 1 } else h
  if h1.viewer_count = 0 ∧ h1.no_viewer_since = 0 then
    { h1 with no_viewer_since := now }
  else h1

/-- Embeds `WorkerOrchestrator.release_stream_viewer`
(orchestrator.py lines 118-126): total, returns silently on an unknown
stream id. -/
def release_stream_viewer (S : Orch) (stream_id : String) (now : Rat) : Orch :=
  match lookupA S.workers stream_id with
  | none => S
  | some h => { S with workers := insertA S.workers stream_id (releaseHandle h now) }

/-! Watchdog liveness step (orchestrator.py lines 206-269).

Each tick, for each snapshotted handle still present, the monitor
either observes the worker alive (resetting restart scheduling), or
schedules/executes a restart.  `TickObs` carries the per-tick oracle:
the `is_alive()` observation, whether `worker.start` succeeds, and the
`exitcode` read from the dead process. -/

structure TickObs where
  alive : Bool
  spawn_ok : Bool
  exit : Option Int
deriving Repr, DecidableEq

/-- Embeds the liveness branch of `WorkerOrchestrator._monitor_loop` for a
handle that is still the current one (lines 213-267).  `started_at` on a
successful restart abstracts the fresh `time.monotonic()` call as `now`. -/
def monitorLivenessStep (P : OrchParams) (now : Rat) (obs : TickObs)
    (h : WorkerHandle) : WorkerHandle :=
  if obs.alive then
    { h with next_restart_at := 0, backoff_seconds := P.initial_backoff_seconds }
  else if h.next_restart_at = 0 then
    { h with next_restart_at := now + h.backoff_seconds }
  else if now < h.next_restart_at then
    h
  else if obs.spawn_ok = false then
    { h with
      last_exitcode := obs.exit
      next_restart_at := now + h.backoff_seconds
      backoff_seconds := min (h.backoff_seconds * 2) P.max_backoff_seconds }
  else
    { h with
      last_exitcode := obs.exit
      process := { alive := true, exitcode := none }
      restart_count := h.restart_count + 1
      started_at := now
      backoff_seconds := min (h.backoff_seconds * 2) P.max_backoff_seconds
      next_restart_at := 0 }

/-- A sequence of watchdog ticks acting on one handle. -/
def monitorTicks (P : OrchParams) (h : WorkerHandle) : List (Rat × TickObs) → WorkerHandle
  | [] => h
  | (now, obs) :: rest => monitorTicks P (monitorLivenessStep P now obs h) rest

/-! Viewer acquire and release interleavings, for the viewer-count laws. -/

inductive ViewerEvent
  | acq (stream_id : String) (now : Rat)
  | rel (stream_id : String) (now : Rat)
deriving Repr, DecidableEq

/-- One API call: the registry state after `acquire_stream_viewer` or
`release_stream_viewer` (a raised error leaves the state unchanged). -/
def applyViewerEvent (P : OrchParams) (S : Orch) : ViewerEvent → Orch
  | .acq sid now => (acquire_stream_viewer P S sid now).2
  | .rel sid now => release_stream_viewer S sid now

def applyViewerEvents (P : OrchParams) (S : Orch) (es : List ViewerEvent) : Orch :=
  es.foldl (applyViewerEvent P) S

/-! Reader thread: frame indices and timestamps (worker.py lines 98-203).

`frame_idx` starts at `-1` and each emitted frame uses `frame_idx + 1`.
The loop events that touch it: a successful `cap.read()` increments and
emits; a failed read on a remote source releases and reopens the capture
without touching `frame_idx`; EOF on a looping local source seeks to 0
and sets `frame_idx = -1`; a catch-up `cap.grab()` increments without
emitting. -/

inductive ReadEvent
  | readOk
  | readFailReconnect
  | eofLoop
  | grabSkip
deriving Repr, DecidableEq

/-- Effect of one reader-loop event on `frame_idx`, with the emitted
frame index when the event publishes a frame. -/
def readerIdxStep (frame_idx : Int) : ReadEvent → Int × Option Int
  | .readOk => (frame_idx + 1, some (frame_idx + 1))
  | .readFailReconnect => (frame_idx, none)
  | .eofLoop => (-1, none)
  | .grabSkip => (frame_idx + 1, none)

/-- The sequence of frame indices the reader emits over a run of events. -/
def readerEmits (frame_idx : Int) : List ReadEvent → List Int
  | [] => []
  | e :: rest =>
      match readerIdxStep frame_idx e with
      | (idx, some v) => v :: readerEmits idx rest
      | (idx, none) => readerEmits idx rest

/-- Embeds the timestamp derivation (worker.py lines 160-165): the source
PTS when truthy and positive, otherwise elapsed monotonic time. -/
def derive_ts (pts elapsed : Rat) : Rat := if 0 < pts then pts else elapsed

/-- Embeds the clamp (worker.py lines 166-170): a regression below the
previous emitted value is raised to it. -/
def clamp_ts (last raw : Rat) : Rat := if raw < last then last else raw

/-- Timestamps emitted for a run of frames, each described by its raw
`(pts, elapsed)` observation; `last_ts_ms` starts at 0. -/
def emitTimestamps (last_ts_ms : Rat) : List (Rat × Rat) → List Rat
  | [] => []
  | (pts, elapsed) :: rest =>
      let ts := clamp_ts last_ts_ms (derive_ts pts elapsed)
      ts :: emitTimestamps ts rest

/-- Embeds `worker.run` lines 63-68: when `cap.isOpened()` is false the
worker logs, offers the terminal sentinel `None` to the detection queue,
closes the publisher and returns.  A plain return from the process
target makes the OS process exit with status 0. -/
def runOpenFailure {α : Type} (detection_queue : BQueue (Option α)) :
    BQueue (Option α) × Int :=
  (offer_latest detection_queue none, 0)

/-! Concrete example values used by witnesses and counterexamples. -/

def viewerCountsNonneg (S : Orch) : Prop :=
  ∀ p ∈ S.workers, 0 ≤ (p : String × WorkerHandle).2.viewer_count

def cfgA : StreamConfig := ⟨"a", "rtsp://host/live", true⟩

def cfgB : StreamConfig := ⟨"b", "rtsp://host/live", true⟩

def exParams : OrchParams := ⟨1, 1, 60⟩

def exOrchA : Orch := (start_stream exParams ⟨[], []⟩ cfgA 0).2

def exOrchStopped : Orch := (stop_stream exOrchA "a" false).2

def exDeadHandle : WorkerHandle :=
  { process := { alive := false, exitcode := some 1 }
    config := cfgA
    started_at := 0
    last_heartbeat := 0
    restart_count := 0
    backoff_seconds := 1
    next_restart_at := 1
    last_exitcode := none
    viewer_count := 0
    no_viewer_since := 0 }

def exFailObs : TickObs := ⟨false, false, some 1⟩

def exAliveObs : TickObs := ⟨true, true, none⟩

def exTicks : List (Rat × TickObs) :=
  [(2, ⟨false, false, some 1⟩), (3, ⟨false, false, some 1⟩),
   (4, ⟨false, true, some 1⟩), (5, ⟨true, true, none⟩)]

def exReleaseHandle : WorkerHandle :=
  { exDeadHandle with viewer_count := 1, no_viewer_since := 0 }

def exOrchRel : Orch := ⟨[("a", exReleaseHandle)], []⟩

/-! Queue and validation lemmas. -/

theorem offerAll_items : ∀ (xs : List α) (C : Nat) (l : List α),
    l.length ≤ C →
    (offerAll ⟨C, l⟩ xs).items = (l ++ xs).drop (l.length + xs.length - C)
  | [], C, l, h => by
      have hz : l.length - C = 0 := by omega
      simp [offerAll, hz]
  | x :: rest, C, l, h => by
      have hstep : offerAll ⟨C, l⟩ (x :: rest) = offerAll (offer_latest ⟨C, l⟩ x) rest := rfl
      rw [hstep]
      by_cases hlt : l.length < C
      · have hq : offer_latest ⟨C, l⟩ x = ⟨C, l ++ [x]⟩ := by
          unfold offer_latest; simp [hlt]
        rw [hq, offerAll_items rest C (l ++ [x]) (by simp; omega)]
        have hidx : (l ++ [x]).length + rest.length - C
            = l.length + (x :: rest).length - C := by simp; omega
        rw [hidx, List.append_assoc]
        simp
      · match l, h with
        | [], h =>
            have hc0 : C = 0 := by simp at hlt; omega
            subst hc0
            have hq : offer_latest ⟨0, ([] : List α)⟩ x = ⟨0, []⟩ := by
              unfold offer_latest; simp
            rw [hq, offerAll_items rest 0 [] (by simp)]
            simp
        | y :: t, h =>
            have hlen : t.length + 1 = C := by simp at hlt h ⊢; omega
            have htlt : t.length < C := by omega
            have hq : offer_latest ⟨C, y :: t⟩ x = ⟨C, t ++ [x]⟩ := by
              unfold offer_latest
              simp [htlt]
              omega
            rw [hq, offerAll_items rest C (t ++ [x]) (by simp; omega)]
            have hidx1 : (t ++ [x]).length + rest.length - C = rest.length := by
              simp; omega
            have hidx2 : (y :: t).length + (x :: rest).length - C = rest.length + 1 := by
              simp; omega
            rw [hidx1, hidx2]
            have hl1 : (t ++ [x]) ++ rest = t ++ (x :: rest) := by simp
            have hl2 : (y :: t) ++ (x :: rest) = y :: (t ++ (x :: rest)) := by simp
            rw [hl1, hl2, List.drop_succ_cons]

theorem isStreamIdChar_eq_specIdChar (c : Char) : isStreamIdChar c = specIdChar c := by
  rw [Bool.eq_iff_iff]
  simp [isStreamIdChar, specIdChar, Char.isAlphanum, Char.isAlpha, Char.isDigit,
        Char.isUpper, Char.isLower, Char.le_def, ge_iff_le]
  tauto

theorem acceptsConfig_eq (sid url : String) (loop : Bool) :
    acceptsConfig sid url loop = (streamIdOk sid && !url.isEmpty) := by
  cases h : (streamIdOk sid && !url.isEmpty) <;>
    simp [acceptsConfig, mkStreamConfig, h]

theorem not_isEmpty_eq_one_le_length (s : String) :
    (!s.isEmpty) = decide (1 ≤ s.length) := by
  by_cases he : s = ""
  · subst he; rfl
  · have h1 : s.isEmpty = false := by
      rw [Bool.eq_false_iff]
      intro h
      exact he ((String.isEmpty_iff s).mp h)
    have hd : s.data ≠ [] := by
      intro hdn
      exact he (String.ext (by rw [hdn]))
    have h2 : 1 ≤ s.length := List.length_pos.mpr hd
    simp [h1, h2]

/-- C5 (amended): construction accepts exactly the ids matching
`^[A-Za-z0-9_-]+$` (no upper length bound) with a non-empty `source_url`. -/
theorem mkStreamConfig_accepts_iff (sid url : String) (loop : Bool) :
    acceptsConfig sid url loop = specConfigAcceptedNoCap sid url := by
  have hchar : isStreamIdChar = specIdChar := funext isStreamIdChar_eq_specIdChar
  rw [acceptsConfig_eq]
  unfold streamIdOk specConfigAcceptedNoCap
  rw [hchar, not_isEmpty_eq_one_le_length, not_isEmpty_eq_one_le_length,
    Bool.and_assoc]

/-! Association-list lemmas. -/

theorem lookupA_insertA_self {β : Type} (m : List (String × β)) (k : String) (v : β) :
    lookupA (insertA m k v) k = some v := by
  induction m with
  | nil => simp [insertA, lookupA]
  | cons p rest ih =>
      by_cases h : p.1 == k
      · simp [insertA, lookupA, h]
      · simp [insertA, lookupA, h, ih]

theorem lookupA_eraseA_self {β : Type} (m : List (String × β)) (k : String) :
    lookupA (eraseA m k) k = none := by
  induction m with
  | nil => simp [eraseA, lookupA]
  | cons p rest ih =>
      by_cases h : p.1 == k
      · simp [eraseA, h, ih]
      · simp [eraseA, lookupA, h, ih]

theorem mem_insertA {β : Type} {m : List (String × β)} {k : String} {v : β}
    {p : String × β} (hp : p ∈ insertA m k v) : p = (k, v) ∨ p ∈ m := by
  induction m with
  | nil => simp [insertA] at hp; simp [hp]
  | cons q rest ih =>
      by_cases h : q.1 == k
      · simp [insertA, h] at hp
        rcases hp with hp | hp
        · exact .inl hp
        · exact .inr (List.mem_cons_of_mem _ hp)
      · simp [insertA, h] at hp
        rcases hp with hp | hp
        · exact .inr (by simp [hp])
        · rcases ih hp with h1 | h1
          · exact .inl h1
          · exact .inr (List.mem_cons_of_mem _ h1)

theorem lookupA_mem {β : Type} {m : List (String × β)} {k : String} {v : β}
    (h : lookupA m k = some v) : (k, v) ∈ m := by
  induction m with
  | nil => simp [lookupA] at h
  | cons p rest ih =>
      by_cases hk : p.1 == k
      · simp [lookupA, hk] at h
        have h1 : p.1 = k := by simpa using hk
        have hp : p = (k, v) := by
          cases p with
          | mk a b =>
              simp only at h1 h
              simp [h1, h]
        subst hp
        exact List.mem_cons_self _ _
      · simp [lookupA, hk] at h
        exact List.mem_cons_of_mem _ (ih h)

/-! Claim theorems. -/

/-- C1: `start_stream` raises `StreamAlreadyRunningError` when a handle
exists for `config.stream_id`, raises `ResourceLimitExceededError` when
the worker count has reached `max_workers`, and on either failure the
handle map and config registry are unchanged (so starting one more
stream at capacity leaves exactly the same `max_workers` entries). -/
theorem start_stream_failure_paths (P : OrchParams) (S : Orch) (c : StreamConfig)
    (now : Rat) :
    ((lookupA S.workers c.stream_id).isSome = true →
      start_stream P S c now = (.error .alreadyRunning, S)) ∧
    ((lookupA S.workers c.stream_id).isSome = false →
      P.max_workers ≤ S.workers.length →
      start_stream P S c now = (.error .capacityExceeded, S)) := by
  constructor
  · intro h
    simp [start_stream, h]
  · intro h1 h2
    simp [start_stream, h1, h2]

/-- C1 witness: with `max_workers = 1` and stream `"a"` running, starting
`"a"` again fails with AlreadyRunning and starting a distinct `"b"`
fails with CapacityExceeded; both leave the registry untouched. -/
theorem start_stream_failure_paths_witness :
    start_stream exParams exOrchA cfgA 1 = (.error .alreadyRunning, exOrchA)
    ∧ start_stream exParams exOrchA cfgB 1 = (.error .capacityExceeded, exOrchA) :=
  ⟨(start_stream_failure_paths exParams exOrchA cfgA 1).1 (by decide),
   (start_stream_failure_paths exParams exOrchA cfgB 1).2 (by decide) (by decide)⟩

/-- C10: `stop_stream(stream_id, remove_config=True)` pops the config
before the handle check, so with no handle present it raises
`StreamNotFoundError` yet still deletes a retained config, after which
`acquire_stream_viewer` also raises `StreamNotFoundError`. -/
theorem stop_stream_notfound_still_drops_config (P : OrchParams) (S : Orch)
    (sid : String) (now : Rat)
    (hw : lookupA S.workers sid = none)
    (_hc : (lookupA S.stream_configs sid).isSome = true) :
    (stop_stream S sid true).1 = .error .notFound
    ∧ lookupA (stop_stream S sid true).2.stream_configs sid = none
    ∧ (acquire_stream_viewer P (stop_stream S sid true).2 sid now).1
        = .error .notFound := by
  have hs : stop_stream S sid true
      = (.error .notFound, ⟨eraseA S.workers sid, eraseA S.stream_configs sid⟩) := by
    simp [stop_stream, hw]
  rw [hs]
  refine ⟨rfl, lookupA_eraseA_self _ _, ?_⟩
  simp [acquire_stream_viewer, lookupA_eraseA_self]

/-- C10 witness: stream `"a"` stopped with its config retained; a second
`stop_stream("a", remove_config=True)` raises NotFound yet deletes the
config, and a subsequent viewer acquire fails with NotFound. -/
theorem stop_stream_notfound_still_drops_config_witness :
    (stop_stream exOrchStopped "a" true).1 = .error .notFound
    ∧ lookupA (stop_stream exOrchStopped "a" true).2.stream_configs "a" = none
    ∧ (acquire_stream_viewer exParams (stop_stream exOrchStopped "a" true).2 "a" 2).1
        = .error .notFound :=
  stop_stream_notfound_still_drops_config exParams exOrchStopped "a" 2
    (by decide) (by decide)

/-- C3 counterexample: a dead handle with `backoff_seconds = 1` due for
restart at `now = 1` under `max_backoff = 60`; the spawn fails and the
code writes `next_restart_at = now + 1` (the pre-doubling backoff), not
`now + min(2·1, 60) = 3` as the claim states. -/
theorem restart_backoff_counterexample :
    (monitorLivenessStep exParams 1 exFailObs exDeadHandle).next_restart_at = 2
    ∧ (monitorLivenessStep exParams 1 exFailObs exDeadHandle).next_restart_at
        ≠ 1 + min (2 * exDeadHandle.backoff_seconds) exParams.max_backoff_seconds := by
  have hstep : (monitorLivenessStep exParams 1 exFailObs exDeadHandle).next_restart_at
      = 1 + exDeadHandle.backoff_seconds := by
    unfold monitorLivenessStep
    norm_num [exFailObs, exDeadHandle, exParams]
  rw [hstep]
  rw [show exDeadHandle.backoff_seconds = 1 from rfl,
    show exParams.max_backoff_seconds = (60 : Rat) from rfl]
  rw [min_eq_left (by norm_num : (2 : Rat) * 1 ≤ 60)]
  constructor <;> norm_num

/-- C3 (amended): on a spawn failure during the watchdog restart step,
`next_restart_at` is written as `now + backoff_seconds` using the
pre-doubling backoff value; `backoff_seconds` is then doubled and capped
at `max_backoff`, so the doubled value only applies to the following
attempt. -/
theorem restart_spawn_failure_reschedule (P : OrchParams) (now : Rat) (obs : TickObs)
    (h : WorkerHandle) (ha : obs.alive = false) (hnra : h.next_restart_at ≠ 0)
    (hdue : h.next_restart_at ≤ now) (hsp : obs.spawn_ok = false) :
    monitorLivenessStep P now obs h
      = { h with
          last_exitcode := obs.exit
          next_restart_at := now + h.backoff_seconds
          backoff_seconds := min (h.backoff_seconds * 2) P.max_backoff_seconds } := by
  simp [monitorLivenessStep, ha, hnra, hsp, not_lt.mpr hdue]

/-- C3 witness: the concrete failing-spawn tick reschedules at
`now + backoff = 2` and stores the doubled capped backoff for the next
attempt. -/
theorem restart_spawn_failure_reschedule_witness :
    monitorLivenessStep exParams 1 exFailObs exDeadHandle
      = { exDeadHandle with
          last_exitcode := exFailObs.exit
          next_restart_at := 1 + exDeadHandle.backoff_seconds
          backoff_seconds := min (exDeadHandle.backoff_seconds * 2)
            exParams.max_backoff_seconds } :=
  restart_spawn_failure_reschedule exParams 1 exFailObs exDeadHandle
    rfl (by norm_num [exDeadHandle]) (by norm_num [exDeadHandle]) rfl

theorem monitorLivenessStep_backoff_bounds (P : OrchParams) (now : Rat) (obs : TickObs)
    (h : WorkerHandle) (h0 : 0 ≤ P.initial_backoff_seconds)
    (h1 : P.initial_backoff_seconds ≤ P.max_backoff_seconds)
    (h2 : P.initial_backoff_seconds ≤ h.backoff_seconds)
    (h3 : h.backoff_seconds ≤ P.max_backoff_seconds) :
    P.initial_backoff_seconds ≤ (monitorLivenessStep P now obs h).backoff_seconds
    ∧ (monitorLivenessStep P now obs h).backoff_seconds ≤ P.max_backoff_seconds := by
  have hdouble : h.backoff_seconds ≤ h.backoff_seconds * 2 := by linarith
  unfold monitorLivenessStep
  split_ifs
  · exact ⟨le_refl _, h1⟩
  · exact ⟨h2, h3⟩
  · exact ⟨h2, h3⟩
  · exact ⟨le_min (le_trans h2 hdouble) h1, min_le_right _ _⟩
  · exact ⟨le_min (le_trans h2 hdouble) h1, min_le_right _ _⟩

theorem monitorTicks_backoff_bounds (P : OrchParams) (ticks : List (Rat × TickObs)) :
    ∀ (h : WorkerHandle), 0 ≤ P.initial_backoff_seconds →
    P.initial_backoff_seconds ≤ P.max_backoff_seconds →
    P.initial_backoff_seconds ≤ h.backoff_seconds →
    h.backoff_seconds ≤ P.max_backoff_seconds →
    P.initial_backoff_seconds ≤ (monitorTicks P h ticks).backoff_seconds
    ∧ (monitorTicks P h ticks).backoff_seconds ≤ P.max_backoff_seconds := by
  induction ticks with
  | nil => intro h _ _ h2 h3; exact ⟨h2, h3⟩
  | cons t rest ih =>
      intro h h0 h1 h2 h3
      obtain ⟨now, obs⟩ := t
      have hb := monitorLivenessStep_backoff_bounds P now obs h h0 h1 h2 h3
      exact ih _ h0 h1 hb.1 hb.2

/-- C4: with `0 ≤ initial_backoff ≤ max_backoff`, a handle spawned with
`backoff_seconds = initial_backoff` keeps `backoff_seconds` inside
`[initial_backoff, max_backoff]` across every sequence of watchdog ticks
and restart cycles, and any tick that observes the worker alive resets
`backoff_seconds` to `initial_backoff` and `next_restart_at` to 0. -/
theorem watchdog_backoff_invariant (P : OrchParams) (c : StreamConfig) (vc : Int)
    (t0 : Rat) (ticks : List (Rat × TickObs)) (now : Rat) (obs : TickObs)
    (h : WorkerHandle)
    (h0 : 0 ≤ P.initial_backoff_seconds)
    (h1 : P.initial_backoff_seconds ≤ P.max_backoff_seconds)
    (halive : obs.alive = true) :
    (P.initial_backoff_seconds
        ≤ (monitorTicks P (spawnHandle P c vc t0) ticks).backoff_seconds
      ∧ (monitorTicks P (spawnHandle P c vc t0) ticks).backoff_seconds
        ≤ P.max_backoff_seconds)
    ∧ (monitorLivenessStep P now obs h).backoff_seconds = P.initial_backoff_seconds
    ∧ (monitorLivenessStep P now obs h).next_restart_at = 0 := by
  refine ⟨monitorTicks_backoff_bounds P ticks (spawnHandle P c vc t0) h0 h1 ?_ ?_, ?_, ?_⟩
  · exact le_refl _
  · exact h1
  · simp [monitorLivenessStep, halive]
  · simp [monitorLivenessStep, halive]

/-- C4 witness: a concrete crash/fail/restart/alive tick sequence keeps
the backoff inside `[1, 60]`, and an alive observation resets the dead
handle's backoff to 1 and its `next_restart_at` to 0. -/
theorem watchdog_backoff_invariant_witness :
    (exParams.initial_backoff_seconds
        ≤ (monitorTicks exParams (spawnHandle exParams cfgA 0 0) exTicks).backoff_seconds
      ∧ (monitorTicks exParams (spawnHandle exParams cfgA 0 0) exTicks).backoff_seconds
        ≤ exParams.max_backoff_seconds)
    ∧ (monitorLivenessStep exParams 6 exAliveObs exDeadHandle).backoff_seconds
        = exParams.initial_backoff_seconds
    ∧ (monitorLivenessStep exParams 6 exAliveObs exDeadHandle).next_restart_at = 0 :=
  watchdog_backoff_invariant exParams cfgA 0 0 exTicks 6 exAliveObs exDeadHandle
    (by norm_num [exParams]) (by norm_num [exParams]) rfl

/-! Viewer-count lemmas. -/

theorem releaseHandle_viewer_count (h : WorkerHandle) (now : Rat) :
    (releaseHandle h now).viewer_count
      = if 0 < h.viewer_count then h.viewer_count - 1 else h.viewer_count := by
  by_cases hp : 0 < h.viewer_count
  · simp only [releaseHandle, if_pos hp]
    split_ifs <;> rfl
  · simp only [releaseHandle, if_neg hp]
    split_ifs <;> rfl

theorem acquire_existing (P : OrchParams) (S : Orch) (sid : String) (now : Rat)
    (h : WorkerHandle) (hl : lookupA S.workers sid = some h) :
    acquire_stream_viewer P S sid now
      = (.ok { h with viewer_count := h.viewer_count + 1, no_viewer_since := 0, last_heartbeat := now },
         { S with workers := insertA S.workers sid { h with viewer_count := h.viewer_count + 1, no_viewer_since := 0, last_heartbeat := now } }) := by
  simp [acquire_stream_viewer, hl]

theorem release_existing (S : Orch) (sid : String) (now : Rat)
    (h : WorkerHandle) (hl : lookupA S.workers sid = some h) :
    release_stream_viewer S sid now
      = { S with workers := insertA S.workers sid (releaseHandle h now) } := by
  simp [release_stream_viewer, hl]

theorem applyViewerEvent_nonneg (P : OrchParams) (S : Orch) (e : ViewerEvent)
    (hS : viewerCountsNonneg S) : viewerCountsNonneg (applyViewerEvent P S e) := by
  cases e with
  | acq sid now =>
      cases hl : lookupA S.workers sid with
      | some h =>
          have hrw : applyViewerEvent P S (.acq sid now) = { S with workers := insertA S.workers sid { h with viewer_count := h.viewer_count + 1, no_viewer_since := 0, last_heartbeat := now } } := by
            simp [applyViewerEvent, acquire_existing P S sid now h hl]
          rw [hrw]
          intro p hp
          rcases mem_insertA hp with hp | hp
          · have hh := hS _ (lookupA_mem hl)
            simp only at hh
            subst hp
            dsimp only
            omega
          · exact hS _ hp
      | none =>
          cases hc : lookupA S.stream_configs sid with
          | none =>
              have hrw : applyViewerEvent P S (.acq sid now) = S := by
                simp [applyViewerEvent, acquire_stream_viewer, hl, hc]
              rw [hrw]; exact hS
          | some cfg =>
              by_cases hcap : P.max_workers ≤ S.workers.length
              · have hrw : applyViewerEvent P S (.acq sid now) = S := by
                  simp [applyViewerEvent, acquire_stream_viewer, hl, hc, hcap]
                rw [hrw]; exact hS
              · have hrw : applyViewerEvent P S (.acq sid now) = { S with workers := insertA S.workers sid (spawnHandle P cfg 1 now) } := by
                  simp [applyViewerEvent, acquire_stream_viewer, hl, hc, hcap]
                rw [hrw]
                intro p hp
                rcases mem_insertA hp with hp | hp
                · subst hp
                  simp only [spawnHandle]
                  exact le_max_left _ _
                · exact hS _ hp
  | rel sid now =>
      cases hl : lookupA S.workers sid with
      | none =>
          have hrw : applyViewerEvent P S (.rel sid now) = S := by
            simp [applyViewerEvent, release_stream_viewer, hl]
          rw [hrw]; exact hS
      | some h =>
          have hrw : applyViewerEvent P S (.rel sid now) = { S with workers := insertA S.workers sid (releaseHandle h now) } := by
            simp [applyViewerEvent, release_existing S sid now h hl]
          rw [hrw]
          intro p hp
          rcases mem_insertA hp with hp | hp
          · have hh := hS _ (lookupA_mem hl)
            simp only at hh
            subst hp
            show 0 ≤ (releaseHandle h now).viewer_count
            rw [releaseHandle_viewer_count]
            split_ifs <;> omega
          · exact hS _ hp

theorem applyViewerEvents_nonneg (P : OrchParams) (es : List ViewerEvent) :
    ∀ (S : Orch), viewerCountsNonneg S → viewerCountsNonneg (applyViewerEvents P S es) := by
  induction es with
  | nil => intro S hS; exact hS
  | cons e rest ih =>
      intro S hS
      exact ih _ (applyViewerEvent_nonneg P S e hS)

theorem acquires_fold (P : OrchParams) (sid : String) (t : Rat) :
    ∀ (a : Nat) (S : Orch) (h : WorkerHandle), lookupA S.workers sid = some h →
    ∃ h', lookupA (applyViewerEvents P S (List.replicate a (.acq sid t))).workers sid
        = some h' ∧ h'.viewer_count = h.viewer_count + a := by
  intro a
  induction a with
  | zero =>
      intro S h hl
      exact ⟨h, by simpa [applyViewerEvents] using hl, by simp⟩
  | succ n ih =>
      intro S h hl
      have hstep : applyViewerEvents P S (List.replicate (n + 1) (.acq sid t))
          = applyViewerEvents P (applyViewerEvent P S (.acq sid t))
              (List.replicate n (.acq sid t)) := by
        rw [List.replicate_succ]
        rfl
      rw [hstep]
      have hrw : applyViewerEvent P S (.acq sid t) = { S with workers := insertA S.workers sid { h with viewer_count := h.viewer_count + 1, no_viewer_since := 0, last_heartbeat := t } } := by
        simp [applyViewerEvent, acquire_existing P S sid t h hl]
      rw [hrw]
      obtain ⟨h', hl', hc'⟩ := ih { S with workers := insertA S.workers sid { h with viewer_count := h.viewer_count + 1, no_viewer_since := 0, last_heartbeat := t } } { h with viewer_count := h.viewer_count + 1, no_viewer_since := 0, last_heartbeat := t } (lookupA_insertA_self _ _ _)
      refine ⟨h', hl', ?_⟩
      dsimp only at hc'
      omega

theorem releases_fold (P : OrchParams) (sid : String) (t : Rat) :
    ∀ (r : Nat) (S : Orch) (h : WorkerHandle), lookupA S.workers sid = some h →
    0 ≤ h.viewer_count →
    ∃ h', lookupA (applyViewerEvents P S (List.replicate r (.rel sid t))).workers sid
        = some h' ∧ h'.viewer_count = max 0 (h.viewer_count - r) := by
  intro r
  induction r with
  | zero =>
      intro S h hl hnn
      exact ⟨h, by simpa [applyViewerEvents] using hl, by omega⟩
  | succ n ih =>
      intro S h hl hnn
      have hstep : applyViewerEvents P S (List.replicate (n + 1) (.rel sid t))
          = applyViewerEvents P (applyViewerEvent P S (.rel sid t))
              (List.replicate n (.rel sid t)) := by
        rw [List.replicate_succ]
        rfl
      rw [hstep]
      have hrw : applyViewerEvent P S (.rel sid t) = { S with workers := insertA S.workers sid (releaseHandle h t) } := by
        simp [applyViewerEvent, release_existing S sid t h hl]
      rw [hrw]
      obtain ⟨h', hl', hc'⟩ := ih { S with workers := insertA S.workers sid (releaseHandle h t) } (releaseHandle h t) (lookupA_insertA_self _ _ _)
        (by rw [releaseHandle_viewer_count]; split_ifs <;> omega)
      refine ⟨h', hl', ?_⟩
      rw [hc', releaseHandle_viewer_count]
      split_ifs <;> omega

/-- C8 (amended): for every interleaving of acquire and release calls,
`viewer_count` stays non-negative on every handle; releasing an unknown
stream id returns without raising and leaves the state unchanged; a run
of `a` acquires followed by `r ≥ a` releases on a handle that starts at
`viewer_count = 0` ends with `viewer_count = 0` (the floor-at-0 claim
holds for releases that follow the acquires, not for arbitrary
interleavings); and a release that takes the count from 1 to 0 records
`no_viewer_since = now`. -/
theorem viewer_count_laws (P : OrchParams) (S : Orch) (sid : String) (t : Rat)
    (es : List ViewerEvent) (a r : Nat) (h : WorkerHandle) :
    (lookupA S.workers sid = none → release_stream_viewer S sid t = S)
    ∧ (viewerCountsNonneg S → viewerCountsNonneg (applyViewerEvents P S es))
    ∧ (lookupA S.workers sid = some h → h.viewer_count = 0 → a ≤ r →
        ∃ h', lookupA (applyViewerEvents P S
            (List.replicate a (.acq sid t) ++ List.replicate r (.rel sid t))).workers sid
          = some h' ∧ h'.viewer_count = 0)
    ∧ (lookupA S.workers sid = some h → h.viewer_count = 1 → h.no_viewer_since = 0 →
        lookupA (release_stream_viewer S sid t).workers sid
          = some { h with viewer_count := 0, no_viewer_since := t }) := by
  refine ⟨?_, applyViewerEvents_nonneg P es S, ?_, ?_⟩
  · intro hl
    simp [release_stream_viewer, hl]
  · intro hl hvc har
    have happ : applyViewerEvents P S
        (List.replicate a (.acq sid t) ++ List.replicate r (.rel sid t))
        = applyViewerEvents P
            (applyViewerEvents P S (List.replicate a (.acq sid t)))
            (List.replicate r (.rel sid t)) := by
      unfold applyViewerEvents
      exact List.foldl_append _ _ _ _
    rw [happ]
    obtain ⟨h1, hl1, hc1⟩ := acquires_fold P sid t a S h hl
    obtain ⟨h2, hl2, hc2⟩ := releases_fold P sid t r _ h1 hl1 (by omega)
    exact ⟨h2, hl2, by omega⟩
  · intro hl hvc hnv
    rw [release_existing S sid t h hl]
    have hrh : releaseHandle h t = { h with viewer_count := 0, no_viewer_since := t } := by
      simp [releaseHandle, hvc, hnv]
    rw [hrh]
    exact lookupA_insertA_self _ _ _

/-- C8 counterexample: starting from a freshly started stream `"a"` with
`viewer_count = 0`, the interleaving release, release, acquire performs
more releases (2) than acquires (1) yet leaves `viewer_count = 1`, not 0
as the claim states for every interleaving. -/
theorem release_more_than_acquire_counterexample :
    Option.map WorkerHandle.viewer_count
      (lookupA (applyViewerEvents exParams exOrchA
        [.rel "a" 1, .rel "a" 1, .acq "a" 1]).workers "a") = some 1
    ∧ Option.map WorkerHandle.viewer_count
        (lookupA (applyViewerEvents exParams exOrchA
          [.rel "a" 1, .rel "a" 1, .acq "a" 1]).workers "a") ≠ some 0 := by
  constructor <;> decide

/-- C8 witness: concrete instances of each law — release on the unknown
id `"z"` is a no-op; the non-negativity invariant holds after a concrete
event run; 1 acquire then 2 releases from count 0 ends at 0; and a
release from count 1 stamps `no_viewer_since`. -/
theorem viewer_count_laws_witness :
    (release_stream_viewer exOrchA "z" 1 = exOrchA)
    ∧ (viewerCountsNonneg (applyViewerEvents exParams exOrchA
        [.rel "a" 1, .acq "a" 1, .rel "a" 2]))
    ∧ (∃ h', lookupA (applyViewerEvents exParams exOrchA
          (List.replicate 1 (.acq "a" 1) ++ List.replicate 2 (.rel "a" 1))).workers "a"
        = some h' ∧ h'.viewer_count = 0)
    ∧ lookupA (release_stream_viewer exOrchRel "a" 3).workers "a"
        = some { exReleaseHandle with viewer_count := 0, no_viewer_since := 3 } := by
  have h1 := (viewer_count_laws exParams exOrchA "z" 1 [] 0 0 exReleaseHandle).1
  have h2 := (viewer_count_laws exParams exOrchA "a" 1
    [.rel "a" 1, .acq "a" 1, .rel "a" 2] 0 0 exReleaseHandle).2.1
  have h3 := (viewer_count_laws exParams exOrchA "a" 1 [] 1 2
    ((lookupA exOrchA.workers "a").getD exReleaseHandle)).2.2.1
  have h4 := (viewer_count_laws exParams exOrchRel "a" 3 [] 0 0 exReleaseHandle).2.2.2
  refine ⟨h1 (by decide), h2 ?_, ?_, h4 (by decide) (by decide) (by decide)⟩
  · show ∀ p ∈ exOrchA.workers, 0 ≤ (p : String × WorkerHandle).2.viewer_count
    decide
  · exact h3 (by decide) (by decide) (by decide)

/-- C2: the non-blocking offer evicts exactly the oldest element when
the queue is full, so after any sequence of offers the queue holds the
`min(N, C)` most recent items in order; with capacity 1, after offering
`0..99` a single get returns 99. -/
theorem drop_oldest_queue_laws :
    (∀ (C : Nat) (xs : List Nat),
        (offerAll (BQueue.empty Nat C) xs).items = xs.drop (xs.length - C))
    ∧ (∀ (q : BQueue Nat) (x : Nat), q.items.length = q.cap → 1 ≤ q.cap →
        offer_latest q x = ⟨q.cap, q.items.tail ++ [x]⟩)
    ∧ (getNowait (offerAll (BQueue.empty Nat 1) (List.range 100))).1 = some 99 := by
  refine ⟨?_, ?_, ?_⟩
  · intro C xs
    have h := offerAll_items xs C [] (by simp)
    simpa [BQueue.empty] using h
  · intro q x hfull hcap
    obtain ⟨C, items⟩ := q
    dsimp only at hfull hcap ⊢
    cases items with
    | nil => simp at hfull; omega
    | cons y t =>
        unfold offer_latest
        dsimp only
        rw [if_neg (by simp at hfull ⊢; omega)]
        rw [if_pos (by simp at hfull ⊢; omega)]
        rfl
  · set_option maxRecDepth 4000 in decide

/-- C2 witness: a full capacity-1 queue holding `[0]` evicts 0 on the
offer of 5, and offering `[1, 2, 3]` into an empty capacity-2 queue
retains `[2, 3]`. -/
theorem drop_oldest_queue_laws_witness :
    offer_latest (⟨1, [0]⟩ : BQueue Nat) 5 = ⟨1, [5]⟩
    ∧ (offerAll (BQueue.empty Nat 2) [1, 2, 3]).items = [2, 3] := by
  refine ⟨?_, ?_⟩
  · have h := drop_oldest_queue_laws.2.1 ⟨1, [0]⟩ 5 (by decide) (by decide)
    simpa using h
  · have h := drop_oldest_queue_laws.1 2 [1, 2, 3]
    simpa using h

/-- C5 counterexample: the code imposes no upper length bound on
`stream_id` (pydantic pattern `^[a-zA-Z0-9_-]+$` with only
`min_length=1`), so a 65-character id is accepted although the claimed
grammar `^[A-Za-z0-9_-]{1,64}$` rejects it. -/
theorem stream_id_length_cap_counterexample :
    acceptsConfig longStreamId "rtsp://host/live" true = true
    ∧ specConfigAccepted64 longStreamId "rtsp://host/live" = false := by
  constructor <;> decide

theorem readerEmits_chain (evs : List ReadEvent) :
    ∀ idx : Int, ReadEvent.eofLoop ∉ evs →
      List.Chain' (· < ·) (readerEmits idx evs)
      ∧ ∀ v ∈ readerEmits idx evs, idx < v := by
  induction evs with
  | nil => intro idx _; exact ⟨List.chain'_nil, by simp [readerEmits]⟩
  | cons e rest ih =>
      intro idx h
      have hne : ReadEvent.eofLoop ∉ rest := fun hm => h (List.mem_cons_of_mem _ hm)
      cases e with
      | readOk =>
          have hr := ih (idx + 1) hne
          constructor
          · show List.Chain' (· < ·) ((idx + 1) :: readerEmits (idx + 1) rest)
            refine List.chain'_cons'.mpr ⟨?_, hr.1⟩
            intro b hb
            exact hr.2 b (List.mem_of_mem_head? hb)
          · intro v hv
            rcases List.mem_cons.mp hv with rfl | hv
            · omega
            · have := hr.2 v hv
              omega
      | readFailReconnect =>
          exact ih idx hne
      | grabSkip =>
          have hr := ih (idx + 1) hne
          refine ⟨hr.1, ?_⟩
          intro v hv
          have := hr.2 v hv
          omega
      | eofLoop => exact absurd (List.mem_cons_self _ _) h

/-- C6 (amended): a remote-source reconnect does not reset the frame
index — it continues from its previous value, so within a session with
no local-loop EOF the emitted frame indices strictly increase even
across reconnects; only the loop path resets the counter (to -1, making
the next emitted index 0). -/
theorem reader_frame_index_across_reconnect (idx : Int) (evs : List ReadEvent)
    (hnl : ReadEvent.eofLoop ∉ evs) :
    List.Chain' (· < ·) (readerEmits idx evs)
    ∧ readerIdxStep idx .readFailReconnect = (idx, none)
    ∧ readerIdxStep idx .eofLoop = (-1, none) :=
  ⟨(readerEmits_chain evs idx hnl).1, rfl, rfl⟩

/-- C6 counterexample: reading two frames, failing and reconnecting,
then reading again emits indices `[0, 1, 2]`: the post-reconnect frame
has index 2, not 0 as the claim requires. -/
theorem reader_reconnect_reset_counterexample :
    readerEmits (-1)
      [ReadEvent.readOk, ReadEvent.readOk, ReadEvent.readFailReconnect, ReadEvent.readOk]
      = [0, 1, 2]
    ∧ ((2 : Int) ≠ 0) := by
  constructor <;> decide

/-- C6 witness: the emitted indices of the concrete
read/read/reconnect/read run are strictly increasing. -/
theorem reader_frame_index_across_reconnect_witness :
    List.Chain' (· < ·) (readerEmits (-1)
      [ReadEvent.readOk, ReadEvent.readOk, ReadEvent.readFailReconnect, ReadEvent.readOk])
    ∧ readerIdxStep (-1) ReadEvent.readFailReconnect = (-1, none)
    ∧ readerIdxStep (-1) ReadEvent.eofLoop = (-1, none) :=
  reader_frame_index_across_reconnect (-1)
    [ReadEvent.readOk, ReadEvent.readOk, ReadEvent.readFailReconnect, ReadEvent.readOk]
    (by decide)

theorem emitTimestamps_chain (obs : List (Rat × Rat)) :
    ∀ last : Rat, List.Chain' (· ≤ ·) (emitTimestamps last obs)
      ∧ ∀ v ∈ emitTimestamps last obs, last ≤ v := by
  induction obs with
  | nil => intro last; exact ⟨List.chain'_nil, by simp [emitTimestamps]⟩
  | cons p rest ih =>
      intro last
      obtain ⟨pts, elapsed⟩ := p
      have hts : last ≤ clamp_ts last (derive_ts pts elapsed) := by
        unfold clamp_ts
        split_ifs with hlt
        · exact le_refl _
        · exact le_of_not_lt hlt
      have hr := ih (clamp_ts last (derive_ts pts elapsed))
      constructor
      · show List.Chain' (· ≤ ·)
          (clamp_ts last (derive_ts pts elapsed)
            :: emitTimestamps (clamp_ts last (derive_ts pts elapsed)) rest)
        refine List.chain'_cons'.mpr ⟨?_, hr.1⟩
        intro b hb
        exact hr.2 b (List.mem_of_mem_head? hb)
      · intro v hv
        rcases List.mem_cons.mp hv with rfl | hv
        · exact hts
        · exact le_trans hts (hr.2 v hv)

/-- C7: within one session the emitted `timestamp_ms` sequence is
monotone non-decreasing; each raw timestamp is the decoder PTS when
positive, otherwise elapsed monotonic time, and a value below the
previous emitted timestamp is clamped up to the previous value. -/
theorem reader_timestamps_monotone (obs : List (Rat × Rat)) (last pts elapsed : Rat) :
    List.Chain' (· ≤ ·) (emitTimestamps 0 obs)
    ∧ clamp_ts last (derive_ts pts elapsed) = max last (derive_ts pts elapsed)
    ∧ (0 < pts → derive_ts pts elapsed = pts)
    ∧ (¬ 0 < pts → derive_ts pts elapsed = elapsed) := by
  refine ⟨(emitTimestamps_chain obs 0).1, ?_, ?_, ?_⟩
  · unfold clamp_ts
    split_ifs with hlt
    · exact (max_eq_left (le_of_lt hlt)).symm
    · exact (max_eq_right (le_of_not_lt hlt)).symm
  · intro hp
    unfold derive_ts
    rw [if_pos hp]
  · intro hp
    unfold derive_ts
    rw [if_neg hp]

/-- C7 witness: a concrete session with a positive PTS, a missing PTS
and a regressing PTS produces a non-decreasing timestamp sequence, and
the derivation picks the PTS exactly when positive. -/
theorem reader_timestamps_monotone_witness :
    List.Chain' (· ≤ ·) (emitTimestamps 0 [(5, 1), (0, 3), (2, 4)])
    ∧ clamp_ts 5 (derive_ts 0 3) = max 5 (derive_ts 0 3)
    ∧ derive_ts 5 1 = 5
    ∧ derive_ts 0 3 = 3 := by
  have h1 := reader_timestamps_monotone [(5, 1), (0, 3), (2, 4)] 5 5 1
  have h2 := reader_timestamps_monotone [(5, 1), (0, 3), (2, 4)] 5 0 3
  exact ⟨h1.1, h2.2.1, h1.2.2.1 (by norm_num), h2.2.2.2 (by norm_num)⟩

/-- C9 (amended): when the worker cannot open its source URL it offers
the terminal `None` sentinel to the detection queue (which lands as the
newest element for any queue respecting its capacity bound) and then
returns normally, so the worker process exits with status 0, not a
non-zero code. -/
theorem worker_open_failure_sentinel {α : Type} (q : BQueue (Option α))
    (hcap : 1 ≤ q.cap) (hlen : q.items.length ≤ q.cap) :
    (runOpenFailure q).1.items.getLast? = some none
    ∧ (runOpenFailure q).2 = 0 := by
  refine ⟨?_, rfl⟩
  show (offer_latest q none).items.getLast? = some none
  unfold offer_latest
  by_cases hfull : q.items.length < q.cap
  · rw [if_pos hfull]
    exact List.getLast?_concat _
  · rw [if_neg hfull]
    cases hq : q.items with
    | nil =>
        rw [hq] at hfull
        simp at hfull
        omega
    | cons y t =>
        rw [hq] at hlen hfull
        simp only [hq]
        rw [if_pos (by simp at hlen hfull ⊢; omega)]
        exact List.getLast?_concat _

/-- C9 counterexample: at the concrete empty capacity-30 detection
queue, the open-failure path does enqueue the sentinel, but the process
exit status is 0; the claim's non-zero exit conjunct is false. -/
theorem worker_open_failure_exit_counterexample :
    (runOpenFailure (BQueue.empty (Option Nat) 30)).2 = 0
    ∧ ¬ ((runOpenFailure (BQueue.empty (Option Nat) 30)).1.items.getLast? = some none
         ∧ (runOpenFailure (BQueue.empty (Option Nat) 30)).2 ≠ 0) := by
  constructor <;> decide

/-- C9 witness: the concrete empty capacity-30 queue receives the
sentinel as its newest element and the exit status is 0. -/
theorem worker_open_failure_sentinel_witness :
    (runOpenFailure (BQueue.empty (Option Nat) 30)).1.items.getLast? = some none
    ∧ (runOpenFailure (BQueue.empty (Option Nat) 30)).2 = 0 :=
  worker_open_failure_sentinel (BQueue.empty (Option Nat) 30) (by decide) (by decide)

end OpenAR
